import Mathlib

/-!
Shallow embedding of the csmb backend's assignment graph, authorization
checks, metrics repository and analytics computations, translated from:

* `src/services/assignmentService.ts` (`AssignmentService`)
* `src/middlewares/permissions.ts` (`canAccessFounderContent`)
* `src/controllers/metricsController.ts` (`uploadMetrics`, `getFounderMetrics`)
* `src/services/metricsService.ts` (`MetricsService.uploadMetrics`)
* `src/services/adminDashboardService.ts` (growth / completion-rate maths)
* `src/services/postService.ts` (`getRecentActivities` milestones,
  `getGraphData` completion rate)

Conventions of the embedding:

* MongoDB collections become Lean lists; `ObjectId`s become `Nat`.
  A `Founder` profile document's `_id` is identified with its `userId`
  (the two are in bijection: one profile per user), so assignment edges
  store the founder's user id directly.
* `AppError(message, status)` becomes the inductive `AppErr`:
  404 lookups are `NotFound`, the 400 role-validation errors are
  `InvalidRole`, the 400 month-format error is `InvalidFormat`,
  403 is `Forbidden`.
* Fallible operations return `Except AppErr _`; an `Except.error` result
  produces no successor state, which models the source's transaction
  rollback (the store is left as it was).
* `Date.now()` is an explicit `now : Nat` parameter.
* JavaScript `Math.round x` is `⌊x + 1/2⌋` on exact rationals.
-/

namespace Csmb

/-- User roles, from `src/models/User.ts` (`role` enum). -/
inductive Role
  | superAdmin
  | admin
  | founder
deriving DecidableEq, Repr

/-- Error taxonomy carried by `AppError`. -/
inductive AppErr
  | NotFound
  | InvalidRole
  | InvalidFormat
  | Forbidden
deriving DecidableEq, Repr

/-- One assignment edge, from `src/models/Assignment.ts`
(`founderId`, `adminId`, `assignedBy`, `assignedAt`). -/
structure Edge where
  founderId : Nat
  adminId : Nat
  assignedBy : Nat
  assignedAt : Nat
deriving DecidableEq, Repr

/-- The persistent store visible to the assignment/authorization code:
the `users` collection (id, role), the `founders` and `admins` profile
collections (each profile is identified by its user id), and the
`assignments` collection. -/
structure St where
  users : List (Nat × Role)
  founderProfiles : List Nat
  adminProfiles : List Nat
  edges : List Edge
deriving DecidableEq, Repr

/-- `User.findById`: role of a user id, `none` when the user is absent. -/
def usersLookup (st : St) (id : Nat) : Option Role :=
  (st.users.find? (fun p => p.1 == id)).map (fun p => p.2)

/-- The admin-id validation loop of
`AssignmentService.assignAdminsToFounder` (lines 46–56): for each id in
order, `Admin.findOne({userId})` must exist (else 404) and
`User.findById` must exist with role `admin` (else 400). Returns the
first error, or `none` when every id validates. -/
def validateAdmins (st : St) : List Nat → Option AppErr
  | [] => none
  | a :: rest =>
    if a ∈ st.adminProfiles then
      match usersLookup st a with
      | some Role.admin => validateAdmins st rest
      | _ => some AppErr.InvalidRole
    else some AppErr.NotFound

/-- `AssignmentService.assignAdminsToFounder` (the spec's
`replaceAssignments`): validates the founder (profile exists, user has
founder role), validates every admin id, then in one transaction deletes
every edge with this `founderId` and inserts one fresh edge per admin id
with `assignedAt = now`. -/
def assignAdminsToFounder (st : St) (founderId : Nat) (adminIds : List Nat)
    (assignedBy : Nat) (now : Nat) : Except AppErr St :=
  if founderId ∈ st.founderProfiles then
    match usersLookup st founderId with
    | some Role.founder =>
      match validateAdmins st adminIds with
      | some e => Except.error e
      | none =>
        Except.ok { st with
          edges := st.edges.filter (fun e => decide (e.founderId ≠ founderId))
            ++ adminIds.map (fun a => ⟨founderId, a, assignedBy, now⟩) }
    | _ => Except.error AppErr.InvalidRole
  else Except.error AppErr.NotFound

/-- `AssignmentService.getAssignedAdmins` (the spec's
`listAdminsForFounder`): 404 when the founder profile is absent;
otherwise the aggregation matches edges on `founderId`, `$unwind`s the
admin-profile lookup and the user lookup (dropping edges whose admin
profile or user document is missing) and projects `adminId`. -/
def getAssignedAdmins (st : St) (founderId : Nat) : Except AppErr (List Nat) :=
  if founderId ∈ st.founderProfiles then
    Except.ok (((st.edges.filter (fun e => decide (e.founderId = founderId))).filter
      (fun e => decide (e.adminId ∈ st.adminProfiles ∧ (usersLookup st e.adminId).isSome))).map
        (fun e => e.adminId))
  else Except.error AppErr.NotFound

/-- `AssignmentService.isAdminAssignedToFounder` (the spec's
`isAssigned`): resolve the founder profile — absent means `false`, not
an error — then test existence of the edge. Total: every exit of the
source returns a boolean (the catch-all returns `false`). -/
def isAdminAssignedToFounder (st : St) (adminId founderId : Nat) : Bool :=
  if founderId ∈ st.founderProfiles then
    st.edges.any (fun e => decide (e.founderId = founderId ∧ e.adminId = adminId))
  else false

/-- `AssignmentService.getAssignedFounders`, projected to the founder
ids the callers use (`assignment.founderId` in the controllers, which
the aggregation projects as `founder.userId`): 404 when the admin
profile is absent, 400 when the user is missing or not admin-role;
otherwise the edges matching `adminId`, `$unwind`ed through the founder
profile and the founder's user document. -/
def getAssignedFounders (st : St) (adminId : Nat) : Except AppErr (List Nat) :=
  if adminId ∈ st.adminProfiles then
    match usersLookup st adminId with
    | some Role.admin =>
      Except.ok (((st.edges.filter (fun e => decide (e.adminId = adminId))).filter
        (fun e => decide (e.founderId ∈ st.founderProfiles ∧
          (usersLookup st e.founderId).isSome))).map (fun e => e.founderId))
    | _ => Except.error AppErr.InvalidRole
  else Except.error AppErr.NotFound

/-- `canAccessFounderContent` from `src/middlewares/permissions.ts`:
super-admin always; founder only for its own id; admin on a direct edge
lookup. -/
def canAccessFounderContent (st : St) (userId : Nat) (role : Role)
    (founderId : Nat) : Bool :=
  match role with
  | Role.superAdmin => true
  | Role.founder => decide (founderId = userId)
  | Role.admin => st.edges.any (fun e => decide (e.founderId = founderId ∧ e.adminId = userId))

/-- The counters of one metrics upload, from the `MetricsData` shape in
`src/services/metricsService.ts`. -/
structure MetricsData where
  totalPosts : Int
  totalImpressions : Int
  totalCommentOutreach : Int
  notes : Option String
deriving DecidableEq, Repr

/-- One `FounderMetrics` document, from `src/models/FounderMetrics.ts`
(`createdAt`/`updatedAt` timestamps are not used by the claims and are
omitted). -/
structure MetricRec where
  founderId : Nat
  uploadedBy : Nat
  month : String
  totalPosts : Int
  totalImpressions : Int
  totalCommentOutreach : Int
  notes : Option String
deriving DecidableEq, Repr

/-- The `(founderId, month)` key test used by
`FounderMetrics.findOne({founderId, month})`. -/
def sameKey (r : MetricRec) (founderId : Nat) (month : String) : Bool :=
  decide (r.founderId = founderId ∧ r.month = month)

/-- A fresh `FounderMetrics` document as built by
`FounderMetrics.create` in `MetricsService.uploadMetrics`. -/
def mkMetricRec (founderId uploaderId : Nat) (month : String)
    (d : MetricsData) : MetricRec :=
  ⟨founderId, uploaderId, month, d.totalPosts, d.totalImpressions,
    d.totalCommentOutreach, d.notes⟩

/-- `MetricsService.uploadMetrics`: `findOne({founderId, month})` — when
a record exists, overwrite its three counters, notes and `uploadedBy` in
place (the first matching document, which under the unique compound
index is the only one); otherwise append a fresh document. -/
def uploadMetrics (ms : List MetricRec) (founderId uploaderId : Nat)
    (month : String) (d : MetricsData) : List MetricRec :=
  match ms with
  | [] => [mkMetricRec founderId uploaderId month d]
  | r :: rs =>
    if sameKey r founderId month then
      { r with
        totalPosts := d.totalPosts
        totalImpressions := d.totalImpressions
        totalCommentOutreach := d.totalCommentOutreach
        notes := d.notes
        uploadedBy := uploaderId } :: rs
    else r :: uploadMetrics rs founderId uploaderId month d

/-- The month-format test of `metricsController.uploadMetrics`
(line 24): the regex `^\d{4}-\d{2}$`, i.e. exactly four digits, a
hyphen, and two digits — the numeric range of the two-digit part is not
inspected. The schema's `match` validator in
`src/models/FounderMetrics.ts` is the same regex. -/
def isMonthFormat (s : String) : Bool :=
  match s.data with
  | [y1, y2, y3, y4, h, m1, m2] =>
    y1.isDigit && y2.isDigit && y3.isDigit && y4.isDigit &&
      h == '-' && m1.isDigit && m2.isDigit
  | _ => false

/-- `metricsController.uploadMetrics` (the spec's `upsertMonthly`
boundary): month-format check first (`InvalidFormat` before anything is
written); an admin caller must have the founder among
`getAssignedFounders` (else `Forbidden`); then
`MetricsService.uploadMetrics` runs. Any other role proceeds directly
(the route restricts callers to admin / super-admin). -/
def uploadMetricsCtl (st : St) (ms : List MetricRec) (founderId userId : Nat)
    (role : Role) (month : String) (d : MetricsData) :
    Except AppErr (List MetricRec) :=
  if isMonthFormat month then
    match role with
    | Role.admin =>
      match getAssignedFounders st userId with
      | Except.error e => Except.error e
      | Except.ok fids =>
        if founderId ∈ fids then
          Except.ok (uploadMetrics ms founderId userId month d)
        else Except.error AppErr.Forbidden
    | _ => Except.ok (uploadMetrics ms founderId userId month d)
  else Except.error AppErr.InvalidFormat

/-- The authorization portion of `metricsController.getFounderMetrics`
(lines 63–84). A founder caller must own a founder profile whose
`userId` equals the requested `founderId`; an admin caller must have the
founder among `getAssignedFounders`; a super-admin passes both branches
untouched. The read itself (`MetricsService.getFounderMetrics`) cannot
fail, so the endpoint's success/failure is this decision. -/
def getFounderMetricsAuthz (st : St) (founderId userId : Nat)
    (role : Role) : Except AppErr Unit :=
  match role with
  | Role.founder =>
    if userId ∈ st.founderProfiles ∧ userId = founderId then Except.ok ()
    else Except.error AppErr.Forbidden
  | Role.admin =>
    match getAssignedFounders st userId with
    | Except.error e => Except.error e
    | Except.ok fids =>
      if founderId ∈ fids then Except.ok () else Except.error AppErr.Forbidden
  | Role.superAdmin => Except.ok ()

/-- JavaScript `Math.round` on an exact rational: `⌊x + 1/2⌋`. -/
def jsRound (q : ℚ) : ℤ := ⌊q + 1 / 2⌋

/-- The period-over-period growth percentage of
`AdminDashboardService.getAdminRecentActivities` (lines 258–264):
`prev > 0 ? Math.round(((cur - prev) / prev) * 100) : 0`. -/
def growthPct (current previous : ℤ) : ℤ :=
  if 0 < previous then jsRound (((current : ℚ) - (previous : ℚ)) / (previous : ℚ) * 100)
  else 0

/-- The performance-highlight decision for one founder (lines 257–267):
both the current-month and previous-month records must exist, and then
the founder is surfaced when `impressionsGrowth > 20 ||
engagementGrowth > 20`. -/
def isPerformanceHighlight (cur prev : Option MetricRec) : Bool :=
  match cur, prev with
  | some c, some p =>
    decide (20 < growthPct c.totalImpressions p.totalImpressions) ||
      decide (20 < growthPct c.totalCommentOutreach p.totalCommentOutreach)
  | _, _ => false

/-- The completion-rate arithmetic shared by
`AdminDashboardService.getAdminDashboardStats` (lines 108–110) and
`DashboardService.getGraphData` (lines 631–633):
`total > 0 ? Math.round((completed / total) * 100) : 0`. -/
def completionRate (completed total : ℕ) : ℤ :=
  if 0 < total then jsRound ((completed : ℚ) / (total : ℚ) * 100) else 0

/-- The admin's founder scope in `getAdminDashboardStats` (lines
91–94): `Assignment.find({adminId})` mapped to `founderId` (no profile
or role filtering on this path). -/
def assignedFounderIdsOf (st : St) (adminId : Nat) : List Nat :=
  (st.edges.filter (fun e => decide (e.adminId = adminId))).map (fun e => e.founderId)

/-- `FounderMetrics.distinct('founderId', {founderId ∈ scope, month})`
(lines 103–106): the deduplicated founder ids among the records of the
scope for the month. -/
def foundersWithMonthMetrics (ms : List MetricRec) (scope : List Nat)
    (month : String) : List Nat :=
  ((ms.filter (fun r => decide (r.founderId ∈ scope ∧ r.month = month))).map
    (fun r => r.founderId)).dedup

/-- `metricsCompletionRate` of `getAdminDashboardStats` (lines 102–110)
for one admin and one month key. -/
def adminMetricsCompletionRate (st : St) (ms : List MetricRec)
    (adminId : Nat) (month : String) : ℤ :=
  completionRate
    (foundersWithMonthMetrics ms (assignedFounderIdsOf st adminId) month).length
    (assignedFounderIdsOf st adminId).length

/-- The per-month completion rate of `DashboardService.getGraphData`
(lines 629–633): distinct founder ids with a record for the month over
the total founder count. -/
def graphCompletionRate (ms : List MetricRec) (allFoundersCount : ℕ)
    (month : String) : ℤ :=
  completionRate
    ((ms.filter (fun r => decide (r.month = month))).map (fun r => r.founderId)).dedup.length
    allFoundersCount

/-- The milestone thresholds of `DashboardService.getRecentActivities`
(line 519). -/
def milestones : List ℤ := [100, 500, 1000]

/-- The milestone report for one founder's lifetime post count (lines
531–543): the loop takes the first milestone with
`totalPosts < milestone && totalPosts >= milestone - 10` and breaks, so
at most one `(milestone, postsAway)` pair is emitted. -/
def upcomingMilestone (totalPosts : ℤ) : Option (ℤ × ℤ) :=
  match milestones.find? (fun m => decide (totalPosts < m ∧ m - 10 ≤ totalPosts)) with
  | some m => some (m, m - totalPosts)
  | none => none

/-- A founder's lifetime post count (lines 527–528): the sum of
`totalPosts` over all of its metrics records. -/
def lifetimePosts (ms : List MetricRec) (founderId : Nat) : ℤ :=
  ((ms.filter (fun r => decide (r.founderId = founderId))).map
    (fun r => r.totalPosts)).sum

/-- The `(founderId, month)` uniqueness invariant that the compound
unique index of `src/models/FounderMetrics.ts` (line 55) maintains on
the metrics collection. -/
def keyNodup (ms : List MetricRec) : Prop :=
  List.Pairwise (fun r s => ¬(r.founderId = s.founderId ∧ r.month = s.month)) ms

/-- The admin-id validation succeeds exactly when every id has an admin
profile and an admin-role user. -/
theorem validateAdmins_eq_none (st : St) (l : List Nat) :
    validateAdmins st l = none ↔
      ∀ a ∈ l, a ∈ st.adminProfiles ∧ usersLookup st a = some Role.admin := by
  induction l with
  | nil => simp [validateAdmins]
  | cons a rest ih =>
    simp only [validateAdmins]
    by_cases ha : a ∈ st.adminProfiles
    · simp only [if_pos ha]
      cases hu : usersLookup st a with
      | none => simp [hu, ha]
      | some r =>
        cases r with
        | admin => simp [ha, hu, ih]
        | superAdmin => simp [hu, ha]
        | founder => simp [hu, ha]
    · rw [if_neg ha]
      constructor
      · intro h; exact absurd h (Option.some_ne_none AppErr.NotFound)
      · intro h; exact absurd (h a (List.mem_cons_self a rest)).1 ha

/-- The admin-id validation can only produce `NotFound` or
`InvalidRole` as an error. -/
theorem validateAdmins_cases (st : St) (l : List Nat) :
    validateAdmins st l = none ∨ validateAdmins st l = some AppErr.NotFound ∨
      validateAdmins st l = some AppErr.InvalidRole := by
  induction l with
  | nil => simp [validateAdmins]
  | cons a rest ih =>
    simp only [validateAdmins]
    by_cases ha : a ∈ st.adminProfiles
    · simp only [if_pos ha]
      cases hu : usersLookup st a with
      | none => simp
      | some r => cases r <;> simp [ih]
    · simp [ha]

/-- The edge list written by a successful `assignAdminsToFounder` call:
the prior edges of other founders plus one fresh edge per admin id. -/
def replacedEdges (st : St) (F : Nat) (S : List Nat) (b now : Nat) : List Edge :=
  st.edges.filter (fun e => decide (e.founderId ≠ F)) ++
    S.map (fun a => ⟨F, a, b, now⟩)

/-- Success characterization of `assignAdminsToFounder`: the call
succeeds exactly when the founder and every admin id validate, and then
the new state replaces the founder's edges wholesale. -/
theorem assign_ok_iff (st st' : St) (F b now : Nat) (S : List Nat) :
    assignAdminsToFounder st F S b now = Except.ok st' ↔
      F ∈ st.founderProfiles ∧ usersLookup st F = some Role.founder ∧
      validateAdmins st S = none ∧
      st' = { st with edges := replacedEdges st F S b now } := by
  unfold assignAdminsToFounder
  by_cases hF : F ∈ st.founderProfiles
  · simp only [if_pos hF]
    cases hu : usersLookup st F with
    | none => simp [hu]
    | some r =>
      cases r with
      | founder =>
        cases hv : validateAdmins st S with
        | none => simp [hF, hu, hv, replacedEdges, eq_comm]
        | some e => simp [hF, hu, hv]
      | superAdmin => simp [hF, hu]
      | admin => simp [hF, hu]
  · simp [hF]

/-- After a replacement, the edges of the replaced founder are exactly
the freshly inserted ones. -/
theorem replacedEdges_filter_self (st : St) (F : Nat) (S : List Nat) (b now : Nat) :
    (replacedEdges st F S b now).filter (fun e => decide (e.founderId = F)) =
      S.map (fun a => ⟨F, a, b, now⟩) := by
  unfold replacedEdges
  rw [List.filter_append]
  have h1 : (st.edges.filter (fun e => decide (e.founderId ≠ F))).filter
      (fun e => decide (e.founderId = F)) = [] := by
    rw [List.filter_eq_nil_iff]
    intro e he
    have h := List.of_mem_filter he
    simp only [decide_eq_true_eq] at h ⊢
    exact h
  have h2 : (S.map (fun a => (⟨F, a, b, now⟩ : Edge))).filter
      (fun e => decide (e.founderId = F)) = S.map (fun a => ⟨F, a, b, now⟩) := by
    rw [List.filter_eq_self]
    intro e he
    rcases List.mem_map.mp he with ⟨a, _, rfl⟩
    simp
  rw [h1, h2, List.nil_append]

/-- After a replacement, edges of other founders are exactly the prior
ones. -/
theorem replacedEdges_filter_ne (st : St) (F : Nat) (S : List Nat) (b now : Nat) :
    (replacedEdges st F S b now).filter (fun e => decide (e.founderId ≠ F)) =
      st.edges.filter (fun e => decide (e.founderId ≠ F)) := by
  unfold replacedEdges
  rw [List.filter_append]
  have h2 : (S.map (fun a => (⟨F, a, b, now⟩ : Edge))).filter
      (fun e => decide (e.founderId ≠ F)) = [] := by
    rw [List.filter_eq_nil_iff]
    intro e he
    rcases List.mem_map.mp he with ⟨a, _, rfl⟩
    simp
  rw [List.filter_filter, h2, List.append_nil]
  have hp : (fun a : Edge => decide (a.founderId ≠ F) && decide (a.founderId ≠ F)) =
      (fun e : Edge => decide (e.founderId ≠ F)) := by
    funext e; exact Bool.and_self _
  rw [hp]

/-- Changing only the edge store leaves user lookups untouched. -/
theorem usersLookup_set_edges (st : St) (E : List Edge) (id : Nat) :
    usersLookup { st with edges := E } id = usersLookup st id := rfl

/-- Changing only the edge store leaves admin-id validation untouched. -/
theorem validateAdmins_set_edges (st : St) (E : List Edge) (l : List Nat) :
    validateAdmins { st with edges := E } l = validateAdmins st l := by
  induction l with
  | nil => rfl
  | cons a rest ih =>
    show (if a ∈ st.adminProfiles then
        match usersLookup st a with
        | some Role.admin => validateAdmins { st with edges := E } rest
        | _ => some AppErr.InvalidRole
      else some AppErr.NotFound) = _
    rw [ih]
    exact rfl

/-- C1. After a successful `replaceAssignments` (that is,
`assignAdminsToFounder`) of founder `F` with admin set `S`,
`listAdminsForFounder` (`getAssignedAdmins`) returns exactly `S`
(order-independent membership), and every admin not in `S` — in
particular every previously assigned admin dropped by the call — is no
longer `isAssigned` to `F`. -/
theorem assign_replace_exact (st st' : St) (F b now : Nat) (S : List Nat)
    (hS : S.Nodup)
    (h : assignAdminsToFounder st F S b now = Except.ok st') :
    (∃ l, getAssignedAdmins st' F = Except.ok l ∧ ∀ a, a ∈ l ↔ a ∈ S) ∧
    (∀ p, p ∉ S → isAdminAssignedToFounder st' p F = false) := by
  rcases (assign_ok_iff st st' F b now S).mp h with ⟨hF, hu, hv, hst⟩
  have hvalid := (validateAdmins_eq_none st S).mp hv
  subst hst
  constructor
  · refine ⟨S, ?_, fun a => Iff.rfl⟩
    have hF' : F ∈ ({ st with edges := replacedEdges st F S b now } : St).founderProfiles := hF
    simp only [getAssignedAdmins, if_pos hF', usersLookup_set_edges]
    rw [replacedEdges_filter_self st F S b now]
    have hkeep : (S.map (fun a => (⟨F, a, b, now⟩ : Edge))).filter
        (fun e => decide (e.adminId ∈ st.adminProfiles ∧ (usersLookup st e.adminId).isSome)) =
        S.map (fun a => ⟨F, a, b, now⟩) := by
      rw [List.filter_eq_self]
      intro e he
      rcases List.mem_map.mp he with ⟨a, haS, rfl⟩
      rcases hvalid a haS with ⟨hp, hr⟩
      simp [hp, hr]
    rw [hkeep, List.map_map]
    exact congrArg Except.ok (List.map_id S)
  · intro p hp
    simp only [isAdminAssignedToFounder, if_pos hF]
    rw [List.any_eq_false]
    intro e he
    rcases List.mem_append.mp he with h1 | h2
    · have hne := List.of_mem_filter h1
      simp only [decide_eq_true_eq] at hne ⊢
      intro hc
      exact hne hc.1
    · rcases List.mem_map.mp h2 with ⟨a, haS, rfl⟩
      simp only [decide_eq_true_eq]
      intro hc
      exact hp (hc.2 ▸ haS)

/-- C2. `replaceAssignments` is all-or-nothing: when any id in `S`
lacks an admin profile or an admin-role user, the call returns an error
(`NotFound` or `InvalidRole`) and produces no successor state — the
edge set the caller observes afterwards is the pre-call one, since an
`Except.error` result leaves the store `st` untouched (the source's
transaction never starts, or rolls back). -/
theorem assign_invalid_admin_fails (st : St) (F b now a : Nat) (S : List Nat)
    (haS : a ∈ S)
    (hbad : ¬(a ∈ st.adminProfiles ∧ usersLookup st a = some Role.admin)) :
    ∃ e, assignAdminsToFounder st F S b now = Except.error e ∧
      (e = AppErr.NotFound ∨ e = AppErr.InvalidRole) := by
  have hvne : validateAdmins st S ≠ none := by
    intro hnone
    exact hbad ((validateAdmins_eq_none st S).mp hnone a haS)
  unfold assignAdminsToFounder
  by_cases hF : F ∈ st.founderProfiles
  · simp only [if_pos hF]
    cases hu : usersLookup st F with
    | none => exact ⟨AppErr.InvalidRole, rfl, Or.inr rfl⟩
    | some r =>
      cases r with
      | founder =>
        rcases validateAdmins_cases st S with hv | hv | hv
        · exact absurd hv hvne
        · rw [hv]; exact ⟨AppErr.NotFound, rfl, Or.inl rfl⟩
        · rw [hv]; exact ⟨AppErr.InvalidRole, rfl, Or.inr rfl⟩
      | superAdmin => exact ⟨AppErr.InvalidRole, rfl, Or.inr rfl⟩
      | admin => exact ⟨AppErr.InvalidRole, rfl, Or.inr rfl⟩
  · simp only [if_neg hF]
    exact ⟨AppErr.NotFound, rfl, Or.inl rfl⟩

/-- C8. `replaceAssignments` is idempotent: replaying the same call on
the state it produced succeeds again and yields the same edge set — on
the nose when the clock reads the same instant, and up to the
`assignedAt` timestamp for any later instant. -/
theorem assign_idempotent (st st₁ : St) (F b n₁ n₂ : Nat) (S : List Nat)
    (h : assignAdminsToFounder st F S b n₁ = Except.ok st₁) :
    assignAdminsToFounder st₁ F S b n₁ = Except.ok st₁ ∧
    ∃ st₂, assignAdminsToFounder st₁ F S b n₂ = Except.ok st₂ ∧
      st₂.edges.map (fun e => (e.founderId, e.adminId, e.assignedBy)) =
        st₁.edges.map (fun e => (e.founderId, e.adminId, e.assignedBy)) := by
  rcases (assign_ok_iff st st₁ F b n₁ S).mp h with ⟨hF, hu, hv, hst⟩
  subst hst
  have hrepl : ∀ n', replacedEdges { st with edges := replacedEdges st F S b n₁ } F S b n' =
      replacedEdges st F S b n' := by
    intro n'
    show (replacedEdges st F S b n₁).filter (fun e => decide (e.founderId ≠ F)) ++
        S.map (fun a => (⟨F, a, b, n'⟩ : Edge)) = replacedEdges st F S b n'
    rw [replacedEdges_filter_ne st F S b n₁]
    rfl
  constructor
  · exact (assign_ok_iff _ _ F b n₁ S).mpr ⟨hF, hu,
      by rw [validateAdmins_set_edges]; exact hv,
      congrArg (fun E : List Edge => ({ st with edges := E } : St)) (hrepl n₁).symm⟩
  · refine ⟨{ st with edges := replacedEdges st F S b n₂ }, ?_, ?_⟩
    · exact (assign_ok_iff _ _ F b n₂ S).mpr ⟨hF, hu,
        by rw [validateAdmins_set_edges]; exact hv,
        congrArg (fun E : List Edge => ({ st with edges := E } : St)) (hrepl n₂).symm⟩
    · show (replacedEdges st F S b n₂).map (fun e => (e.founderId, e.adminId, e.assignedBy)) =
        (replacedEdges st F S b n₁).map (fun e => (e.founderId, e.adminId, e.assignedBy))
      unfold replacedEdges
      rw [List.map_append, List.map_append, List.map_map, List.map_map]
      exact rfl

/-- C10. The fundamental assignment check is total — the embedding of
`isAdminAssignedToFounder` returns `Bool`, never an error value — and
deny-on-absence: an unknown founder yields `false` (not `NotFound`),
and `true` holds exactly when the founder profile exists and an edge
links the pair. -/
theorem isAssigned_total_deny (st : St) (a f : Nat) :
    (f ∉ st.founderProfiles → isAdminAssignedToFounder st a f = false) ∧
    (isAdminAssignedToFounder st a f = true ↔
      f ∈ st.founderProfiles ∧ ∃ e ∈ st.edges, e.founderId = f ∧ e.adminId = a) := by
  constructor
  · intro hf
    simp [isAdminAssignedToFounder, hf]
  · by_cases hf : f ∈ st.founderProfiles
    · simp only [isAdminAssignedToFounder, if_pos hf, List.any_eq_true, decide_eq_true_eq]
      constructor
      · rintro ⟨e, he, h1, h2⟩
        exact ⟨hf, e, he, h1, h2⟩
      · rintro ⟨-, e, he, h1, h2⟩
        exact ⟨e, he, h1, h2⟩
    · simp [isAdminAssignedToFounder, hf]

/-- For a well-formed admin, `getAssignedFounders` succeeds with the
edge-derived founder list. -/
theorem getAssignedFounders_ok (st : St) (x : Nat)
    (hx1 : x ∈ st.adminProfiles) (hx2 : usersLookup st x = some Role.admin) :
    getAssignedFounders st x = Except.ok
      (((st.edges.filter (fun e => decide (e.adminId = x))).filter
        (fun e => decide (e.founderId ∈ st.founderProfiles ∧
          (usersLookup st e.founderId).isSome))).map (fun e => e.founderId)) := by
  simp [getAssignedFounders, hx1, hx2]

/-- For a founder with a profile and a user record, membership in an
admin's `getAssignedFounders` list coincides with `isAssigned`. -/
theorem mem_assignedFounders_iff (st : St) (x f : Nat)
    (hf1 : f ∈ st.founderProfiles) (hf2 : (usersLookup st f).isSome) :
    f ∈ ((st.edges.filter (fun e => decide (e.adminId = x))).filter
        (fun e => decide (e.founderId ∈ st.founderProfiles ∧
          (usersLookup st e.founderId).isSome))).map (fun e => e.founderId) ↔
      isAdminAssignedToFounder st x f = true := by
  rw [(isAssigned_total_deny st x f).2]
  simp only [List.mem_map, List.mem_filter, decide_eq_true_eq]
  constructor
  · rintro ⟨e, ⟨⟨he, hax⟩, -⟩, rfl⟩
    exact ⟨hf1, e, he, rfl, hax⟩
  · rintro ⟨-, e, he, hef, hax⟩
    exact ⟨e, ⟨⟨he, hax⟩, hef ▸ ⟨hf1, hf2⟩⟩, hef⟩

/-- C3. Metrics reads are relationship-scoped. For a well-formed admin
`x` (admin profile, admin-role user) and founder `f` (founder profile,
user record): the admin read of `f`'s metrics succeeds exactly when
`isAssigned(x, f)` holds, and fails with `Forbidden` when it does not;
a founder actor `g` succeeds exactly on its own id and gets `Forbidden`
on any other id; a super-admin is always allowed. The
`canAccessFounderContent` permission gate agrees with the same decision
table. -/
theorem metrics_read_relationship_scoped (st : St) (x g f : Nat)
    (hx1 : x ∈ st.adminProfiles) (hx2 : usersLookup st x = some Role.admin)
    (hf1 : f ∈ st.founderProfiles) (hf2 : (usersLookup st f).isSome)
    (hg : g ∈ st.founderProfiles) :
    (getFounderMetricsAuthz st f x Role.admin = Except.ok () ↔
      isAdminAssignedToFounder st x f = true) ∧
    (isAdminAssignedToFounder st x f = false →
      getFounderMetricsAuthz st f x Role.admin = Except.error AppErr.Forbidden) ∧
    (getFounderMetricsAuthz st f g Role.founder = Except.ok () ↔ g = f) ∧
    (g ≠ f → getFounderMetricsAuthz st f g Role.founder = Except.error AppErr.Forbidden) ∧
    (∀ u : Nat, getFounderMetricsAuthz st f u Role.superAdmin = Except.ok ()) ∧
    (canAccessFounderContent st x Role.admin f = isAdminAssignedToFounder st x f) ∧
    (canAccessFounderContent st g Role.founder f = true ↔ f = g) ∧
    canAccessFounderContent st g Role.superAdmin f = true := by
  have hadm : getFounderMetricsAuthz st f x Role.admin =
      (if f ∈ ((st.edges.filter (fun e => decide (e.adminId = x))).filter
          (fun e => decide (e.founderId ∈ st.founderProfiles ∧
            (usersLookup st e.founderId).isSome))).map (fun e => e.founderId)
        then Except.ok () else Except.error AppErr.Forbidden) := by
    simp only [getFounderMetricsAuthz, getAssignedFounders_ok st x hx1 hx2]
  refine ⟨?_, ?_, ?_, ?_, fun u => rfl, ?_, ?_, rfl⟩
  · rw [hadm]
    by_cases hmem : f ∈ ((st.edges.filter (fun e => decide (e.adminId = x))).filter
        (fun e => decide (e.founderId ∈ st.founderProfiles ∧
          (usersLookup st e.founderId).isSome))).map (fun e => e.founderId)
    · simp only [if_pos hmem]
      simp [(mem_assignedFounders_iff st x f hf1 hf2).mp hmem]
    · simp only [if_neg hmem]
      constructor
      · intro hc; exact absurd hc (by simp)
      · intro hc
        exact absurd ((mem_assignedFounders_iff st x f hf1 hf2).mpr hc) hmem
  · intro hno
    rw [hadm, if_neg]
    intro hmem
    rw [(mem_assignedFounders_iff st x f hf1 hf2).mp hmem] at hno
    exact Bool.true_eq_false.mp hno
  · simp [getFounderMetricsAuthz, hg]
  · intro hne
    simp [getFounderMetricsAuthz, hne]
  · simp [canAccessFounderContent, isAdminAssignedToFounder, hf1]
  · simp [canAccessFounderContent, eq_comm]

/-- Every record in an upsert result either was in the input or carries
the upserted key. -/
theorem mem_uploadMetrics (ms : List MetricRec) (F u : Nat) (m : String)
    (d : MetricsData) (r : MetricRec)
    (hr : r ∈ uploadMetrics ms F u m d) :
    r ∈ ms ∨ (r.founderId = F ∧ r.month = m) := by
  induction ms with
  | nil =>
    simp only [uploadMetrics, List.mem_singleton] at hr
    subst hr
    exact Or.inr ⟨rfl, rfl⟩
  | cons s rest ih =>
    simp only [uploadMetrics] at hr
    by_cases hk : sameKey s F m
    · rw [if_pos hk] at hr
      rcases List.mem_cons.mp hr with h1 | h2
      · have hk' := of_decide_eq_true hk
        subst h1
        exact Or.inr ⟨hk'.1, hk'.2⟩
      · exact Or.inl (List.mem_cons_of_mem s h2)
    · rw [if_neg hk] at hr
      rcases List.mem_cons.mp hr with h1 | h2
      · exact Or.inl (h1 ▸ List.mem_cons_self s rest)
      · rcases ih h2 with h3 | h3
        · exact Or.inl (List.mem_cons_of_mem s h3)
        · exact Or.inr h3

/-- Upserting preserves the `(founderId, month)` uniqueness invariant. -/
theorem keyNodup_uploadMetrics (ms : List MetricRec) (F u : Nat) (m : String)
    (d : MetricsData) (hms : keyNodup ms) :
    keyNodup (uploadMetrics ms F u m d) := by
  induction ms with
  | nil =>
    simp only [uploadMetrics, keyNodup]
    exact List.pairwise_singleton _ _
  | cons s rest ih =>
    rcases (List.pairwise_cons.mp hms) with ⟨hhead, htail⟩
    simp only [uploadMetrics]
    by_cases hk : sameKey s F m
    · rw [if_pos hk]
      refine List.pairwise_cons.mpr ⟨?_, htail⟩
      intro t ht hc
      exact hhead t ht ⟨hc.1, hc.2⟩
    · rw [if_neg hk]
      refine List.pairwise_cons.mpr ⟨?_, ih htail⟩
      intro t ht hc
      rcases mem_uploadMetrics rest F u m d t ht with h1 | h1
      · exact hhead t h1 hc
      · have : sameKey s F m = true := by
          unfold sameKey
          exact decide_eq_true ⟨hc.1.trans h1.1, hc.2.trans h1.2⟩
        exact absurd this hk

/-- With the uniqueness invariant, the records carrying the upserted
key after an upsert are exactly one freshly-valued record. -/
theorem uploadMetrics_filter_key (ms : List MetricRec) (F u : Nat) (m : String)
    (d : MetricsData) (hms : keyNodup ms) :
    (uploadMetrics ms F u m d).filter (fun r => sameKey r F m) =
      [mkMetricRec F u m d] := by
  induction ms with
  | nil =>
    simp only [uploadMetrics]
    rw [List.filter_cons_of_pos]
    · rfl
    · unfold sameKey mkMetricRec
      exact decide_eq_true ⟨rfl, rfl⟩
  | cons s rest ih =>
    rcases (List.pairwise_cons.mp hms) with ⟨hhead, htail⟩
    simp only [uploadMetrics]
    by_cases hk : sameKey s F m
    · rw [if_pos hk]
      have hk' := of_decide_eq_true hk
      have hupd : ({ s with
          totalPosts := d.totalPosts
          totalImpressions := d.totalImpressions
          totalCommentOutreach := d.totalCommentOutreach
          notes := d.notes
          uploadedBy := u } : MetricRec) = mkMetricRec F u m d := by
        unfold mkMetricRec
        rw [show s.founderId = F from hk'.1, show s.month = m from hk'.2]
      rw [List.filter_cons_of_pos]
      · rw [hupd]
        have hrest : rest.filter (fun r => sameKey r F m) = [] := by
          rw [List.filter_eq_nil_iff]
          intro t ht hc
          have hc' := of_decide_eq_true hc
          exact hhead t ht ⟨hk'.1.trans hc'.1.symm, hk'.2.trans hc'.2.symm⟩
        rw [hrest]
      · rw [hupd]
        unfold sameKey mkMetricRec
        exact decide_eq_true ⟨rfl, rfl⟩
    · rw [if_neg hk, List.filter_cons_of_neg, ih htail]
      exact Bool.not_eq_true _ ▸ (by simpa using hk)

/-- Records with a different `(founderId, month)` key are untouched by
an upsert. -/
theorem uploadMetrics_filter_ne (ms : List MetricRec) (F u : Nat) (m : String)
    (d : MetricsData) :
    (uploadMetrics ms F u m d).filter (fun r => !sameKey r F m) =
      ms.filter (fun r => !sameKey r F m) := by
  induction ms with
  | nil =>
    simp only [uploadMetrics]
    rw [List.filter_cons_of_neg, List.filter_nil]
    unfold sameKey mkMetricRec
    simp
  | cons s rest ih =>
    simp only [uploadMetrics]
    by_cases hk : sameKey s F m
    · rw [if_pos hk]
      have hk' := of_decide_eq_true hk
      rw [List.filter_cons_of_neg, List.filter_cons_of_neg]
      · simp [sameKey, hk'.1, hk'.2]
      · simp [sameKey, hk'.1, hk'.2]
    · rw [if_neg hk, List.filter_cons_of_pos, List.filter_cons_of_pos, ih]
      · simpa using hk
      · simpa using hk

/-- C4. `upsertMonthly` is last-write-wins with no duplicates: under
the `(founderId, month)` unique index invariant, uploading metrics for
`(F, m)` twice leaves exactly one record for that key, carrying the
second call's counters and uploader, and every record with a different
key is exactly as it was before both calls. -/
theorem upsertMonthly_last_write_wins (ms : List MetricRec) (F u₁ u₂ : Nat)
    (m : String) (d₁ d₂ : MetricsData) (hms : keyNodup ms) :
    ((uploadMetrics (uploadMetrics ms F u₁ m d₁) F u₂ m d₂).filter
      (fun r => sameKey r F m)) = [mkMetricRec F u₂ m d₂] ∧
    (∀ r ∈ uploadMetrics (uploadMetrics ms F u₁ m d₁) F u₂ m d₂,
      r.founderId = F → r.month = m →
        r.totalPosts = d₂.totalPosts ∧ r.totalImpressions = d₂.totalImpressions ∧
        r.totalCommentOutreach = d₂.totalCommentOutreach ∧ r.uploadedBy = u₂) ∧
    ((uploadMetrics (uploadMetrics ms F u₁ m d₁) F u₂ m d₂).filter
      (fun r => !sameKey r F m)) = ms.filter (fun r => !sameKey r F m) := by
  have h1 : keyNodup (uploadMetrics ms F u₁ m d₁) :=
    keyNodup_uploadMetrics ms F u₁ m d₁ hms
  have hfk := uploadMetrics_filter_key (uploadMetrics ms F u₁ m d₁) F u₂ m d₂ h1
  refine ⟨hfk, ?_, ?_⟩
  · intro r hr hrF hrm
    have hmemf : r ∈ (uploadMetrics (uploadMetrics ms F u₁ m d₁) F u₂ m d₂).filter
        (fun r => sameKey r F m) :=
      List.mem_filter.mpr ⟨hr, decide_eq_true ⟨hrF, hrm⟩⟩
    rw [hfk, List.mem_singleton] at hmemf
    rw [hmemf]
    exact ⟨rfl, rfl, rfl, rfl⟩
  · rw [uploadMetrics_filter_ne, uploadMetrics_filter_ne]

/-- C5. Period-over-period growth: when the previous month's total is
positive the growth is `round(((current − previous) / previous) × 100)`
(JavaScript rounding, `⌊x + 1/2⌋` on exact rationals), and when the
previous total is zero the growth is `0` — never an error or an
infinity; `previous = 0, current = 50` gives `0` and
`previous = 100, current = 120` gives `20`. A founder is a performance
highlight exactly when both monthly records exist and
`max(impressionsGrowth, engagementGrowth) > 20`. -/
theorem growth_zero_previous_policy :
    (∀ c : ℤ, growthPct c 0 = 0) ∧
    growthPct 50 0 = 0 ∧
    growthPct 120 100 = 20 ∧
    (∀ c p : ℤ, 0 < p →
      growthPct c p = jsRound (((c : ℚ) - (p : ℚ)) / (p : ℚ) * 100)) ∧
    (∀ c p : MetricRec, isPerformanceHighlight (some c) (some p) = true ↔
      20 < max (growthPct c.totalImpressions p.totalImpressions)
        (growthPct c.totalCommentOutreach p.totalCommentOutreach)) ∧
    (∀ x : Option MetricRec, isPerformanceHighlight x none = false) ∧
    (∀ x : Option MetricRec, isPerformanceHighlight none x = false) := by
  refine ⟨?_, ?_, ?_, ?_, ?_, ?_, ?_⟩
  · intro c
    simp [growthPct]
  · simp [growthPct]
  · show growthPct 120 100 = 20
    rw [growthPct, if_pos (by norm_num)]
    unfold jsRound
    norm_num
  · intro c p hp
    rw [growthPct, if_pos hp]
  · intro c p
    simp [isPerformanceHighlight, lt_max_iff]
  · intro x
    cases x <;> rfl
  · intro x
    rfl

/-- C6 counterexample. A founder whose lifetime post count is exactly
90 IS reported by the milestone scan — the code's window
`totalPosts < m && totalPosts >= m - 10` includes being exactly 10
posts away — with milestone 100 and `postsAway = 10`, contradicting the
claim that 90 falls outside the window. -/
theorem milestone_posts90_reported :
    upcomingMilestone 90 = some (100, 10) ∧ upcomingMilestone 90 ≠ none := by
  constructor
  · rfl
  · intro hc
    rw [show upcomingMilestone (90 : ℤ) = some ((100 : ℤ), (10 : ℤ)) from rfl] at hc
    exact Option.noConfusion hc

/-- C6 amended. For milestones {100, 500, 1000} over a founder's
lifetime post count `t`, the founder is reported exactly once, for the
single smallest unreached milestone `m`, when `m − 10 ≤ t < m`
(`postsAway` from 1 to 10 inclusive — so `t = 90` is reported with
milestone 100 and `postsAway = 10`); `t = 95` gives `(100, 5)`; at or
over the milestone (`t = 100`) the founder is not reported for it. -/
theorem milestone_window_inclusive :
    (∀ t : ℤ, upcomingMilestone t =
      if 90 ≤ t ∧ t < 100 then some (100, 100 - t)
      else if 490 ≤ t ∧ t < 500 then some (500, 500 - t)
      else if 990 ≤ t ∧ t < 1000 then some (1000, 1000 - t)
      else none) ∧
    upcomingMilestone 95 = some (100, 5) ∧
    upcomingMilestone 100 = none ∧
    (∀ ms F, upcomingMilestone (lifetimePosts ms F) = none ∨
      ∃ m a, upcomingMilestone (lifetimePosts ms F) = some (m, a) ∧
        m ∈ milestones ∧ 1 ≤ a ∧ a ≤ 10 ∧ a = m - lifetimePosts ms F) := by
  have hmain : ∀ t : ℤ, upcomingMilestone t =
      if 90 ≤ t ∧ t < 100 then some (100, 100 - t)
      else if 490 ≤ t ∧ t < 500 then some (500, 500 - t)
      else if 990 ≤ t ∧ t < 1000 then some (1000, 1000 - t)
      else none := by
    intro t
    simp only [upcomingMilestone, milestones]
    by_cases h1 : 90 ≤ t ∧ t < 100
    · rw [List.find?_cons_of_pos _ (by simp only [decide_eq_true_eq]; omega), if_pos h1]
    · rw [List.find?_cons_of_neg _ (by simp only [decide_eq_true_eq]; omega), if_neg h1]
      by_cases h2 : 490 ≤ t ∧ t < 500
      · rw [List.find?_cons_of_pos _ (by simp only [decide_eq_true_eq]; omega), if_pos h2]
      · rw [List.find?_cons_of_neg _ (by simp only [decide_eq_true_eq]; omega), if_neg h2]
        by_cases h3 : 990 ≤ t ∧ t < 1000
        · rw [List.find?_cons_of_pos _ (by simp only [decide_eq_true_eq]; omega), if_pos h3]
        · rw [List.find?_cons_of_neg _ (by simp only [decide_eq_true_eq]; omega), if_neg h3]
          rfl
  refine ⟨hmain, by rfl, by rfl, ?_⟩
  intro ms F
  rcases htv : upcomingMilestone (lifetimePosts ms F) with _ | ⟨m, a⟩
  · exact Or.inl rfl
  · refine Or.inr ⟨m, a, rfl, ?_⟩
    have := hmain (lifetimePosts ms F)
    rw [htv] at this
    by_cases h1 : 90 ≤ lifetimePosts ms F ∧ lifetimePosts ms F < 100
    · rw [if_pos h1] at this
      have hm : m = 100 ∧ a = 100 - lifetimePosts ms F := by
        have h := this.symm
        simp only [Option.some.injEq, Prod.mk.injEq] at h
        exact ⟨h.1.symm, h.2.symm⟩
      refine ⟨by simp [milestones, hm.1], by omega, by omega, by omega⟩
    · rw [if_neg h1] at this
      by_cases h2 : 490 ≤ lifetimePosts ms F ∧ lifetimePosts ms F < 500
      · rw [if_pos h2] at this
        have hm : m = 500 ∧ a = 500 - lifetimePosts ms F := by
          have h := this.symm
          simp only [Option.some.injEq, Prod.mk.injEq] at h
          exact ⟨h.1.symm, h.2.symm⟩
        refine ⟨by simp [milestones, hm.1], by omega, by omega, by omega⟩
      · rw [if_neg h2] at this
        by_cases h3 : 990 ≤ lifetimePosts ms F ∧ lifetimePosts ms F < 1000
        · rw [if_pos h3] at this
          have hm : m = 1000 ∧ a = 1000 - lifetimePosts ms F := by
            have h := this.symm
            simp only [Option.some.injEq, Prod.mk.injEq] at h
            exact ⟨h.1.symm, h.2.symm⟩
          refine ⟨by simp [milestones, hm.1], by omega, by omega, by omega⟩
        · rw [if_neg h3] at this
          exact absurd this.symm (by simp)

/-- A small concrete store used to evaluate the boundary operations:
user 1 is a super-admin, users 2 and 5 founders with profiles, users 3
and 4 admins with profiles; no edges yet. -/
def sampleSt : St :=
  ⟨[(1, Role.superAdmin), (2, Role.founder), (3, Role.admin), (4, Role.admin),
      (5, Role.founder)],
    [2, 5], [3, 4], []⟩

/-- A sample metrics payload. -/
def sampleData : MetricsData := ⟨5, 10, 20, none⟩

/-- C7 counterexample. The month string `"2025-13"` — whose two-digit
part is outside 01–12 — passes the `^\d{4}-\d{2}$` check, so the
upload is NOT rejected with `InvalidFormat`: a super-admin call writes
a record with month `"2025-13"`. -/
theorem month_regex_accepts_13 :
    isMonthFormat "2025-13" = true ∧
    uploadMetricsCtl sampleSt [] 2 1 Role.superAdmin "2025-13" sampleData ≠
      Except.error AppErr.InvalidFormat ∧
    uploadMetricsCtl sampleSt [] 2 1 Role.superAdmin "2025-13" sampleData =
      Except.ok [mkMetricRec 2 1 "2025-13" sampleData] := by
  refine ⟨by decide, ?_, by rfl⟩
  intro hc
  rw [show uploadMetricsCtl sampleSt [] 2 1 Role.superAdmin "2025-13" sampleData =
    Except.ok [mkMetricRec 2 1 "2025-13" sampleData] from rfl] at hc
  exact Except.noConfusion hc

/-- C7 amended. The upload operation fails with `InvalidFormat` exactly
when the month string does not match `^\d{4}-\d{2}$` (four digits,
hyphen, two digits); the numeric range 01–12 of the two-digit part is
NOT checked, so digit-shaped strings such as `"2025-13"` are accepted
and written, while `"2025-1"`, `"20a5-06"` or `"2025/06"` are rejected
before any record is written. -/
theorem month_format_shape_only :
    (∀ (st : St) (ms : List MetricRec) (F u : Nat) (role : Role)
      (month : String) (d : MetricsData), isMonthFormat month = false →
        uploadMetricsCtl st ms F u role month d = Except.error AppErr.InvalidFormat) ∧
    (∀ (st : St) (ms : List MetricRec) (F u : Nat) (month : String)
      (d : MetricsData), isMonthFormat month = true →
        uploadMetricsCtl st ms F u Role.superAdmin month d =
          Except.ok (uploadMetrics ms F u month d)) ∧
    isMonthFormat "2025-13" = true ∧ isMonthFormat "2025-06" = true ∧
    isMonthFormat "2025-1" = false ∧ isMonthFormat "20a5-06" = false ∧
    isMonthFormat "2025/06" = false := by
  refine ⟨?_, ?_, by decide, by decide, by decide, by decide, by decide⟩
  · intro st ms F u role month d h
    simp [uploadMetricsCtl, h]
  · intro st ms F u month d h
    simp [uploadMetricsCtl, h]

/-- The completion-rate arithmetic is nonnegative. -/
theorem completionRate_nonneg (c t : ℕ) : 0 ≤ completionRate c t := by
  unfold completionRate
  split
  · unfold jsRound
    apply Int.le_floor.mpr
    push_cast
    positivity
  · exact le_refl 0

/-- The completion-rate arithmetic is at most 100 when the completed
count does not exceed the total. -/
theorem completionRate_le_100 (c t : ℕ) (h : c ≤ t) : completionRate c t ≤ 100 := by
  unfold completionRate
  split
  · next ht =>
    have ht' : (0 : ℚ) < (t : ℚ) := by exact_mod_cast ht
    have hq : ((c : ℚ) / (t : ℚ) * 100) ≤ 100 := by
      rw [div_mul_eq_mul_div, div_le_iff ht']
      have hc : (c : ℚ) ≤ (t : ℚ) := by exact_mod_cast h
      nlinarith
    unfold jsRound
    have h1 : ⌊(c : ℚ) / (t : ℚ) * 100 + 1 / 2⌋ ≤ ⌊(100 : ℚ) + 1 / 2⌋ :=
      Int.floor_le_floor (by linarith)
    have h2 : ⌊(100 : ℚ) + 1 / 2⌋ = 100 := by
      rw [Int.floor_eq_iff]
      norm_num
    omega
  · norm_num

/-- The distinct founders counted as completed never exceed the scope
size. -/
theorem foundersWithMonthMetrics_length_le (ms : List MetricRec)
    (scope : List Nat) (month : String) :
    (foundersWithMonthMetrics ms scope month).length ≤ scope.length := by
  have hnd : (foundersWithMonthMetrics ms scope month).Nodup := List.nodup_dedup _
  have hsub : foundersWithMonthMetrics ms scope month ⊆ scope := by
    intro a ha
    unfold foundersWithMonthMetrics at ha
    rcases List.mem_map.mp (List.mem_dedup.mp ha) with ⟨r, hr, rfl⟩
    exact (of_decide_eq_true (List.mem_filter.mp hr).2).1
  exact (hnd.subperm hsub).length_le

/-- C9. The completion rate never divides by zero: for an empty founder
scope the rate is exactly `0` (the division branch is unreachable), and
for a nonempty scope it is `round((distinct completed founders / total
founders) × 100)`; in all cases the rate is between 0 and 100. The same
holds for the platform-wide per-month rate of `getGraphData`. -/
theorem completion_rate_guarded (st : St) (ms : List MetricRec)
    (adminId : Nat) (month : String) (n : ℕ) :
    (assignedFounderIdsOf st adminId = [] →
      adminMetricsCompletionRate st ms adminId month = 0) ∧
    (assignedFounderIdsOf st adminId ≠ [] →
      adminMetricsCompletionRate st ms adminId month =
        jsRound ((((foundersWithMonthMetrics ms
            (assignedFounderIdsOf st adminId) month).length : ℚ) /
          ((assignedFounderIdsOf st adminId).length : ℚ)) * 100)) ∧
    0 ≤ adminMetricsCompletionRate st ms adminId month ∧
    adminMetricsCompletionRate st ms adminId month ≤ 100 ∧
    graphCompletionRate ms 0 month = 0 ∧
    (0 < n → graphCompletionRate ms n month =
      jsRound (((((ms.filter (fun r => decide (r.month = month))).map
          (fun r => r.founderId)).dedup.length : ℚ) / (n : ℚ)) * 100)) := by
  refine ⟨?_, ?_, completionRate_nonneg _ _, ?_, ?_, ?_⟩
  · intro hempty
    unfold adminMetricsCompletionRate
    rw [hempty]
    rfl
  · intro hne
    have hpos : 0 < (assignedFounderIdsOf st adminId).length :=
      List.length_pos.mpr hne
    unfold adminMetricsCompletionRate completionRate
    rw [if_pos hpos]
  · exact completionRate_le_100 _ _
      (foundersWithMonthMetrics_length_le ms (assignedFounderIdsOf st adminId) month)
  · rfl
  · intro hn
    unfold graphCompletionRate completionRate
    rw [if_pos hn]

/-- The store after assigning admins {3, 4} to founder 2 in `sampleSt`
(`assignedBy = 1`, `assignedAt = 7`). -/
def stepSt : St :=
  { sampleSt with edges := [⟨2, 3, 1, 7⟩, ⟨2, 4, 1, 7⟩] }

/-- The store with only admin 3 assigned to founder 2. -/
def sampleSt2 : St :=
  { sampleSt with edges := [⟨2, 3, 1, 7⟩] }

/-- C1 witness: in the concrete store, after assigning {3, 4} to
founder 2, admin 9 (never in the set) is not assigned, and the listed
admins are exactly {3, 4}. -/
theorem assign_replace_exact_witness :
    isAdminAssignedToFounder stepSt 9 2 = false ∧
    ∃ l, getAssignedAdmins stepSt 2 = Except.ok l ∧ ∀ a, a ∈ l ↔ a ∈ [3, 4] := by
  have h := assign_replace_exact sampleSt stepSt 2 1 7 [3, 4] (by decide) (by rfl)
  exact ⟨h.2 9 (by decide), h.1⟩

/-- C2 witness: assigning {3, 5} to founder 2 fails (5 has no admin
profile) with `NotFound` or `InvalidRole`. -/
theorem assign_invalid_admin_fails_witness :
    ∃ e, assignAdminsToFounder sampleSt 2 [3, 5] 1 7 = Except.error e ∧
      (e = AppErr.NotFound ∨ e = AppErr.InvalidRole) :=
  assign_invalid_admin_fails sampleSt 2 1 7 5 [3, 5] (by decide) (by decide)

/-- C3 witness: in the store where only admin 3 is assigned to founder
2, admin 3 reads founder 2's metrics and admin 4 is refused with
`Forbidden`; founder 2 reads itself, and is refused on founder id 99. -/
theorem metrics_read_relationship_scoped_witness :
    getFounderMetricsAuthz sampleSt2 2 3 Role.admin = Except.ok () ∧
    getFounderMetricsAuthz sampleSt2 2 4 Role.admin = Except.error AppErr.Forbidden ∧
    getFounderMetricsAuthz sampleSt2 2 2 Role.founder = Except.ok () ∧
    getFounderMetricsAuthz sampleSt2 5 2 Role.founder = Except.error AppErr.Forbidden := by
  refine ⟨?_, ?_, ?_, ?_⟩
  · exact (metrics_read_relationship_scoped sampleSt2 3 2 2 (by decide) (by rfl)
      (by decide) (by rfl) (by decide)).1.mpr (by rfl)
  · exact (metrics_read_relationship_scoped sampleSt2 4 2 2 (by decide) (by rfl)
      (by decide) (by rfl) (by decide)).2.1 (by rfl)
  · exact (metrics_read_relationship_scoped sampleSt2 3 2 2 (by decide) (by rfl)
      (by decide) (by rfl) (by decide)).2.2.1.mpr rfl
  · exact (metrics_read_relationship_scoped sampleSt2 3 2 5 (by decide) (by rfl)
      (by decide) (by rfl) (by decide)).2.2.2.1 (by decide)

/-- C4 witness: uploading posts=5 then posts=8 for (founder 2,
"2025-06") leaves exactly one record for that key, with posts=8 and the
second uploader. -/
theorem upsertMonthly_last_write_wins_witness :
    ((uploadMetrics (uploadMetrics [] 2 3 "2025-06" ⟨5, 10, 20, none⟩)
        2 4 "2025-06" ⟨8, 11, 21, none⟩).filter
      (fun r => sameKey r 2 "2025-06")) = [mkMetricRec 2 4 "2025-06" ⟨8, 11, 21, none⟩] :=
  (upsertMonthly_last_write_wins [] 2 3 4 "2025-06" ⟨5, 10, 20, none⟩
    ⟨8, 11, 21, none⟩ List.Pairwise.nil).1

/-- C5 witness: the positive-previous branch at current=150,
previous=100. -/
theorem growth_zero_previous_policy_witness :
    growthPct 150 100 = jsRound ((((150 : ℤ) : ℚ) - ((100 : ℤ) : ℚ)) / ((100 : ℤ) : ℚ) * 100) :=
  growth_zero_previous_policy.2.2.2.1 150 100 (by norm_num)

/-- C7 amended witness: a malformed month is refused with
`InvalidFormat`, a regex-shaped month is accepted and written. -/
theorem month_format_shape_only_witness :
    uploadMetricsCtl sampleSt [] 2 1 Role.superAdmin "2025x06" sampleData =
      Except.error AppErr.InvalidFormat ∧
    uploadMetricsCtl sampleSt [] 2 1 Role.superAdmin "2025-06" sampleData =
      Except.ok (uploadMetrics [] 2 1 "2025-06" sampleData) := by
  constructor
  · exact month_format_shape_only.1 sampleSt [] 2 1 Role.superAdmin "2025x06"
      sampleData (by decide)
  · exact month_format_shape_only.2.1 sampleSt [] 2 1 "2025-06" sampleData (by decide)

/-- C8 witness: replaying the assignment of {3, 4} to founder 2 on the
post-assignment store returns that store unchanged. -/
theorem assign_idempotent_witness :
    assignAdminsToFounder stepSt 2 [3, 4] 1 7 = Except.ok stepSt :=
  (assign_idempotent sampleSt stepSt 2 1 7 8 [3, 4] (by rfl)).1

/-- C9 witness: an admin with no assigned founders gets completion rate
0 (no division); a nonempty scope takes the rounded-ratio branch, as
does a positive platform-wide founder count. -/
theorem completion_rate_guarded_witness :
    adminMetricsCompletionRate sampleSt [] 3 "2025-06" = 0 ∧
    adminMetricsCompletionRate sampleSt2 [] 3 "2025-06" =
      jsRound ((((foundersWithMonthMetrics []
          (assignedFounderIdsOf sampleSt2 3) "2025-06").length : ℚ) /
        ((assignedFounderIdsOf sampleSt2 3).length : ℚ)) * 100) ∧
    graphCompletionRate [] 5 "2025-06" =
      jsRound (((((([] : List MetricRec).filter (fun r => decide (r.month = "2025-06"))).map
          (fun r => r.founderId)).dedup.length : ℚ) / ((5 : ℕ) : ℚ)) * 100) :=
  ⟨(completion_rate_guarded sampleSt [] 3 "2025-06" 5).1 (by rfl),
    (completion_rate_guarded sampleSt2 [] 3 "2025-06" 5).2.1 (by decide),
    (completion_rate_guarded sampleSt [] 3 "2025-06" 5).2.2.2.2.2 (by norm_num)⟩

/-- C10 witness: an unknown founder id yields `false`, not an error. -/
theorem isAssigned_total_deny_witness :
    isAdminAssignedToFounder sampleSt 3 99 = false :=
  (isAssigned_total_deny sampleSt 3 99).1 (by decide)

end Csmb
